import Mathlib

/-!
Shallow embedding of `src/tictactoe.py` (generalized n×n tic-tac-toe move
engine).  Python 2 two-character slot strings such as "aa" are embedded as
pairs of characters; Python dicts keyed by slots are embedded as association
lists (`List (Slot × Char)`) or, for the derived read-only structures, as
functions of the board configuration.  Python ints are `Nat`/`Int` and the
`defensiveness` float is modelled exactly as a rational.
-/

namespace TicTacToe

/-- Board slots: a row character paired with a column character
(the Python code uses the two-character string row ++ col). -/
abbrev Slot := Char × Char

/-- Source line 36: `pegs = 'OX'` — the two markers. -/
def pegs : List Char := ['O', 'X']

/-- Source lines 38-39: `opposite(peg)` returns `pegs.replace(peg, '')`,
i.e. the string of marker characters different from `peg` (a one-character
string for a valid peg, the whole of `pegs` otherwise). -/
def opposite (peg : Char) : List Char := pegs.filter (fun c => decide (¬ c = peg))

/-- Source lines 41-42: `cross(s1, s2)` — all concatenations e1+e2 in
row-major order. -/
def cross (s1 s2 : List Char) : List Slot :=
  s1.flatMap (fun e1 => s2.map (fun e2 => (e1, e2)))

/-- Source lines 44-46: `diag(s1, s2)` — elementwise pairing of two
equal-length sequences. -/
def diag (s1 s2 : List Char) : List Slot := s1.zip s2

/-- Source line 123: row labels `chr(97+x)` for x in range(board_size). -/
def rows (board_size : Nat) : List Char :=
  (List.range board_size).map (fun x => Char.ofNat (97 + x))

/-- Source line 124: `self._cols = self._rows`. -/
def cols (board_size : Nat) : List Char := rows board_size

/-- Source line 127: all slots of the board, `cross(rows, cols)`. -/
def slots (board_size : Nat) : List Slot := cross (rows board_size) (cols board_size)

/-- Source lines 138-139: lines with a fixed row and a sliding column
window (the source's name `vert_sets` is kept even though these share a row). -/
def vert_sets (n m : Nat) : List (List Slot) :=
  let k := n - m + 1
  (rows n).flatMap (fun r => (List.range k).map (fun i => cross [r] (((cols n).drop i).take m)))

/-- Source lines 140-141: lines with a fixed column and a sliding row window. -/
def horz_sets (n m : Nat) : List (List Slot) :=
  let k := n - m + 1
  (cols n).flatMap (fun c => (List.range k).map (fun i => cross (((rows n).drop i).take m) [c]))

/-- Source lines 142-143: descending diagonal lines, rows i..i+m-1 paired
with columns j..j+m-1 in lockstep. -/
def dia1_sets (n m : Nat) : List (List Slot) :=
  let k := n - m + 1
  (List.range k).flatMap (fun i => (List.range k).map (fun j =>
    diag (((rows n).drop i).take m) (((cols n).drop j).take m)))

/-- Source lines 144-145: ascending diagonal lines, rows i..i+m-1 paired
with columns j..j+m-1 reversed. -/
def dia2_sets (n m : Nat) : List (List Slot) :=
  let k := n - m + 1
  (List.range k).flatMap (fun i => (List.range k).map (fun j =>
    diag (((rows n).drop i).take m) ((((cols n).drop j).take m).reverse)))

/-- Source line 147: `win_sets = vert_sets + horz_sets + dia1_sets + dia2_sets`. -/
def win_sets (n m : Nat) : List (List Slot) :=
  vert_sets n m ++ horz_sets n m ++ dia1_sets n m ++ dia2_sets n m

/-- Source lines 153-154: the winning sets containing a given slot
(`[m for m in self._win_sets if s in m]`). -/
def slot_to_winsets (n m : Nat) (s : Slot) : List (List Slot) :=
  (win_sets n m).filter (fun ws => decide (s ∈ ws))

/-- The board object: configuration plus the placements dict
(association list slot → character, total over `slots board_size`). -/
structure Board where
  board_size : Nat
  win_size : Nat
  placements : List (Slot × Char)

/-- The derived, read-only `self._win_sets` of a board. -/
def Board.win_sets (b : Board) : List (List Slot) :=
  TicTacToe.win_sets b.board_size b.win_size

/-- The derived, read-only `self._slot_to_winsets` of a board. -/
def Board.slot_to_winsets (b : Board) (s : Slot) : List (List Slot) :=
  TicTacToe.slot_to_winsets b.board_size b.win_size s

/-- The slot list `self._slots` of a board. -/
def Board.slots (b : Board) : List Slot := TicTacToe.slots b.board_size

/-- Reading `self._placements[s]`.  On boards built by the constructor the
placements dict is total over the board's slots, so the `' '` default is
never consulted for a board slot; it only totalizes the embedding. -/
def peg_at (b : Board) (s : Slot) : Char := (b.placements.lookup s).getD ' '

/-- Source line 251, the local `chars` of `_parse_board`: replace every '.'
by ' ' (a single-character replace, hence per character) and keep only the
characters in `pegs + ' '` — anything else is dropped. -/
def parse_chars (board_str : String) : List Char :=
  (board_str.toList.map (fun c => if c = '.' then ' ' else c)).filter
    (fun c => decide (c ∈ pegs ++ [' ']))

/-- Source lines 243-253, `_parse_board`: require exactly board_size² kept
characters and zip them with the slots. -/
def parse_board (board_size : Nat) (slots_l : List Slot) (board_str : String) :
    Except String (List (Slot × Char)) :=
  if board_size ^ 2 = (parse_chars board_str).length then
    Except.ok (slots_l.zip (parse_chars board_str))
  else Except.error "AssertionError: board text does not decode to board_size ** 2 cells"

/-- Source lines 112-119, `__init__`: assert `win_size <= board_size` first
(fail fast, before any structure generation), then run
`_initialize_structures`, then default the board string to board_size²
spaces and parse it.  Line 123 of `_initialize_structures` computes
`chr(97+x)` for x up to board_size−1 with Python 2's eager `map`; Python 2's
`chr` only accepts codes below 256, so it raises ValueError — before any
parsing — whenever board_size ≥ 160.  The structure asserts of
`_initialize_structures` (lines 128 and 148) always hold on the surviving
domain; they are proved below as theorems rather than re-checked here. -/
def mkBoard (board_size win_size : Nat) (board_string : Option String) :
    Except String Board :=
  if win_size ≤ board_size then
    if board_size ≤ 159 then
      let bstr := match board_string with
        | none => String.mk (List.replicate (board_size ^ 2) ' ')
        | some s => s
      match parse_board board_size (slots board_size) bstr with
      | Except.ok pl => Except.ok { board_size := board_size, win_size := win_size, placements := pl }
      | Except.error e => Except.error e
    else Except.error "ValueError: chr() arg not in range(256)"
  else Except.error "AssertionError: win_size <= board_size"

/-- Source lines 236-238, `add_placement`: assert the slot currently holds
`' '` (a missing key also fails, `dict.get` returning `None`), then set it. -/
def add_placement (b : Board) (slot : Slot) (peg : Char) : Except String Board :=
  if b.placements.lookup slot = some ' ' then
    let pl := b.placements.map (fun q => if q.1 = slot then (q.1, peg) else q)
    Except.ok { b with placements := pl }
  else Except.error "AssertionError: slot is not empty"

/-- Source line 207: `can_not_win_sets`, the concatenation of the winsets of
every defender slot. -/
def can_not_win_sets (b : Board) (p2_slots : List Slot) : List (List Slot) :=
  (p2_slots.map (fun s => b.slot_to_winsets s)).flatten

/-- Source line 211: `can_win_sets`, the win sets not killed by a defender. -/
def can_win_sets (b : Board) (p2_slots : List Slot) : List (List Slot) :=
  b.win_sets.filter (fun ws => decide (¬ ws ∈ can_not_win_sets b p2_slots))

/-- Source line 223: `vacant_slots = set(cw) - set(p1_slots)`. -/
def vacant_slots (p1_slots : List Slot) (cw : List Slot) : List Slot :=
  cw.dedup.filter (fun s => decide (¬ s ∈ p1_slots))

/-- Source lines 220-233, the body of the `for cw in can_win_sets` loop:
if the vacancy is empty the indicator becomes WON (and is never reset
afterwards, a later iteration keeps `acc.2`); the importance score
`extra_weight = 5 ** (win_size - len(vacant_slots))` is added to the
running weight of every vacant slot. -/
def bom_step (b : Board) (p1_slots : List Slot) (acc : (Slot → Nat) × Int)
    (cw : List Slot) : (Slot → Nat) × Int :=
  let vacant := vacant_slots p1_slots cw
  let ind : Int := if vacant.length = 0 then 1 else acc.2
  let extra := 5 ^ (b.win_size - vacant.length)
  (fun s => if s ∈ vacant then acc.1 s + extra else acc.1 s, ind)

/-- Source lines 192-234, `_best_offensive_move`: returns the weight map
(a total function standing for the dict keyed by the empty slots) and the
indicator.  The peg argument of the source is used only for logging and is
omitted. -/
def best_offensive_move (b : Board) (p1_slots p2_slots _empty_sl : List Slot) :
    (Slot → Nat) × Int :=
  let cws := can_win_sets b p2_slots
  let win_indicator : Int := if cws.length = 0 then -1 else 0
  cws.foldl (bom_step b p1_slots) (fun _ => 0, win_indicator)

/-- Source line 165: the slots currently holding `' '`. -/
def empty_slots (b : Board) : List Slot :=
  b.slots.filter (fun s => decide (peg_at b s = ' '))

/-- Source line 166: the slots currently holding the mover's peg. -/
def my_slots (b : Board) (my_peg : Char) : List Slot :=
  b.slots.filter (fun s => decide (peg_at b s = my_peg))

/-- Source line 167: the slots holding `opposite(my_peg)` (a one-character
string is compared against the stored character). -/
def opp_slots (b : Board) (my_peg : Char) : List Slot :=
  b.slots.filter (fun s => decide ([peg_at b s] = opposite my_peg))

/-- Source line 173: the mover's offensive weight map `w1`. -/
def w1 (b : Board) (my_peg : Char) : Slot → Nat :=
  (best_offensive_move b (my_slots b my_peg) (opp_slots b my_peg) (empty_slots b)).1

/-- Source line 173: the mover's indicator `i1`. -/
def i1 (b : Board) (my_peg : Char) : Int :=
  (best_offensive_move b (my_slots b my_peg) (opp_slots b my_peg) (empty_slots b)).2

/-- Source line 176: the opponent's offensive weight map `w2`. -/
def w2 (b : Board) (my_peg : Char) : Slot → Nat :=
  (best_offensive_move b (opp_slots b my_peg) (my_slots b my_peg) (empty_slots b)).1

/-- Source line 176: the opponent's indicator `i2`. -/
def i2 (b : Board) (my_peg : Char) : Int :=
  (best_offensive_move b (opp_slots b my_peg) (my_slots b my_peg) (empty_slots b)).2

/-- Python's `max(d, key=d.get)`: the first key attaining the maximal value
(a later element replaces the current best only when strictly greater). -/
def argmax_pair (l : List (Slot × ℚ)) : Option (Slot × ℚ) :=
  match l with
  | [] => none
  | p :: rest => some (rest.foldl (fun best q => if best.2 < q.2 then q else best) p)

/-- Source lines 157-190, `best_slot`.  The returned slot is an `Option`:
`max` over the (then necessarily nonempty) weight dict always yields a key. -/
def best_slot (b : Board) (my_peg : Char) (defensiveness : ℚ) :
    Option Slot × String :=
  if (empty_slots b).length = 0 then (none, "GAME DRAW !!")
  else if i1 b my_peg = 1 then (none, String.mk [my_peg] ++ " has won !!")
  else if i2 b my_peg = 1 then (none, String.mk (opposite my_peg) ++ " has won !!")
  else if i1 b my_peg = -1 ∧ i2 b my_peg = -1 then (none, "The game is draw !!")
  else
    let slot_weights := (empty_slots b).map
      (fun s => (s, (w1 b my_peg s : ℚ) + defensiveness * (w2 b my_peg s : ℚ)))
    ((argmax_pair slot_weights).map Prod.fst, "")

/-- State-threading rendering of the `best_slot` method: the method only
reads `self`, so the post-state is the input board. -/
def best_slot_run (b : Board) (my_peg : Char) (defensiveness : ℚ) :
    (Option Slot × String) × Board :=
  (best_slot b my_peg defensiveness, b)

/-- A line whose cells all share one row character. -/
def fixed_row (ws : List Slot) : Prop := ∃ r, ∀ p ∈ ws, p.1 = r

/-- A line whose cells all share one column character. -/
def fixed_col (ws : List Slot) : Prop := ∃ c, ∀ p ∈ ws, p.2 = c

/-- A descending-diagonal line: from each cell to the next, the row and the
column both advance by one. -/
def desc_diag (ws : List Slot) : Prop :=
  ∀ t (h1 : t < ws.length) (h2 : t + 1 < ws.length),
    (ws.get ⟨t + 1, h2⟩).1.toNat = (ws.get ⟨t, h1⟩).1.toNat + 1 ∧
    (ws.get ⟨t + 1, h2⟩).2.toNat = (ws.get ⟨t, h1⟩).2.toNat + 1

/-- An ascending-diagonal line: from each cell to the next, the row advances
by one and the column moves back by one. -/
def asc_diag (ws : List Slot) : Prop :=
  ∀ t (h1 : t < ws.length) (h2 : t + 1 < ws.length),
    (ws.get ⟨t + 1, h2⟩).1.toNat = (ws.get ⟨t, h1⟩).1.toNat + 1 ∧
    (ws.get ⟨t + 1, h2⟩).2.toNat + 1 = (ws.get ⟨t, h1⟩).2.toNat

/-- Modelled from the spec's words (§6): a strictly 1:1 character-to-peg
decoding of the board text, under which the two marker characters denote the
two players and ANY non-marker character is interpreted as Empty.  Used only
to compare the spec's description of parsing with `parse_board`, which
instead drops delimiter characters. -/
def decode_one_to_one (board_str : String) : List Char :=
  board_str.toList.map (fun c => if c ∈ pegs then c else ' ')

/-! Helper lemmas about characters, the board geometry and list counting. -/

lemma toNat_ofNat_char {a : Nat} (h : a < 256) : (Char.ofNat a).toNat = a := by
  unfold Char.ofNat
  split
  · rfl
  · rename_i hc
    exact absurd (Or.inl (by omega)) hc

lemma ofNat_char_inj {a b : Nat} (ha : a < 256) (hb : b < 256)
    (h : Char.ofNat a = Char.ofNat b) : a = b := by
  have h2 := congrArg Char.toNat h
  rwa [toNat_ofNat_char ha, toNat_ofNat_char hb] at h2

lemma length_rows (n : Nat) : (rows n).length = n := by
  simp [rows]

lemma rows_get (n i : Nat) (h : i < (rows n).length) :
    (rows n).get ⟨i, h⟩ = Char.ofNat (97 + i) := by
  simp [rows]

lemma nodup_rows (n : Nat) (hn : n ≤ 159) : (rows n).Nodup := by
  refine List.Nodup.map_on ?_ (List.nodup_range n)
  intro x hx y hy hxy
  rw [List.mem_range] at hx hy
  have := ofNat_char_inj (a := 97 + x) (b := 97 + y) (by omega) (by omega) hxy
  omega

lemma slice_rows_length {n m i : Nat} (hm : m ≤ n) (hi : i < n - m + 1) :
    (((rows n).drop i).take m).length = m := by
  simp [List.length_take, List.length_drop, length_rows]
  omega

lemma slice_rows_getElem {n m i : Nat} (t : Nat) (hm : m ≤ n) (hi : i < n - m + 1)
    (ht : t < (((rows n).drop i).take m).length) :
    (((rows n).drop i).take m)[t] = Char.ofNat (97 + (i + t)) := by
  have hlen : (((rows n).drop i).take m).length = m := slice_rows_length hm hi
  have ht2 : t < m := hlen ▸ ht
  have hb : i + t < (rows n).length := by
    rw [length_rows]; omega
  simp [List.getElem_take, List.getElem_drop, rows]

lemma nodup_slice_rows {n m i : Nat} (hn : n ≤ 159) :
    (((rows n).drop i).take m).Nodup :=
  List.Nodup.sublist ((List.take_sublist m _).trans (List.drop_sublist i _))
    (nodup_rows n hn)

lemma length_cross (s1 s2 : List Char) :
    (cross s1 s2).length = s1.length * s2.length := by
  induction s1 with
  | nil => simp [cross]
  | cons a t ih =>
    simp [cross, List.flatMap_cons] at ih ⊢
    simp [ih, Nat.succ_mul, Nat.add_comm]

lemma mem_cross {s1 s2 : List Char} {p : Slot} :
    p ∈ cross s1 s2 ↔ p.1 ∈ s1 ∧ p.2 ∈ s2 := by
  cases p with
  | mk a c =>
    simp only [cross, List.mem_flatMap, List.mem_map, Prod.mk.injEq]
    constructor
    · rintro ⟨x, hx, y, hy, h1, h2⟩
      subst h1; subst h2; exact ⟨hx, hy⟩
    · rintro ⟨hx, hy⟩
      exact ⟨a, hx, c, hy, rfl, rfl⟩

lemma cross_single_left (r : Char) (l : List Char) :
    cross [r] l = l.map (fun c => (r, c)) := by
  simp [cross]

lemma cross_single_right (l : List Char) (c : Char) :
    cross l [c] = l.map (fun r => (r, c)) := by
  induction l with
  | nil => simp [cross]
  | cons a t ih => simp [cross, List.flatMap_cons] at ih ⊢; simp [ih]

lemma length_slots (n : Nat) : (slots n).length = n ^ 2 := by
  simp [slots, length_cross, length_rows, cols, Nat.pow_two]

lemma length_flatMap_const {α β : Type} (l : List α) (f : α → List β) (c : Nat)
    (h : ∀ a ∈ l, (f a).length = c) : (l.flatMap f).length = l.length * c := by
  induction l with
  | nil => simp
  | cons a t ih =>
    simp [List.flatMap_cons, h a (List.mem_cons_self a t),
      ih (fun x hx => h x (List.mem_cons_of_mem a hx)), Nat.succ_mul, Nat.add_comm]

lemma length_vert_sets (n m : Nat) : (vert_sets n m).length = n * (n - m + 1) := by
  unfold vert_sets
  rw [length_flatMap_const _ _ (n - m + 1) (fun a _ => by simp), length_rows]

lemma length_horz_sets (n m : Nat) : (horz_sets n m).length = n * (n - m + 1) := by
  unfold horz_sets
  rw [length_flatMap_const _ _ (n - m + 1) (fun a _ => by simp), cols, length_rows]

lemma length_dia1_sets (n m : Nat) :
    (dia1_sets n m).length = (n - m + 1) * (n - m + 1) := by
  unfold dia1_sets
  rw [length_flatMap_const _ _ (n - m + 1) (fun a _ => by simp), List.length_range]

lemma length_dia2_sets (n m : Nat) :
    (dia2_sets n m).length = (n - m + 1) * (n - m + 1) := by
  unfold dia2_sets
  rw [length_flatMap_const _ _ (n - m + 1) (fun a _ => by simp), List.length_range]

lemma length_win_sets (n m : Nat) (hm : m ≤ n) :
    (win_sets n m).length = 2 * (2 * n - m + 1) * (n - m + 1) := by
  obtain ⟨d, rfl⟩ := Nat.exists_eq_add_of_le hm
  simp [win_sets, length_vert_sets, length_horz_sets, length_dia1_sets,
    length_dia2_sets, Nat.add_sub_cancel_left]
  have h2 : 2 * (m + d) - m = m + 2 * d := by omega
  rw [h2]
  ring

lemma vert_sets_prop (n m : Nat) (hm : m ≤ n) (hn : n ≤ 159) :
    ∀ ws ∈ vert_sets n m, ws.length = m ∧ ws.Nodup ∧ fixed_row ws := by
  intro ws hws
  unfold vert_sets at hws
  rw [List.mem_flatMap] at hws
  obtain ⟨r, _, hws⟩ := hws
  rw [List.mem_map] at hws
  obtain ⟨i, hi, rfl⟩ := hws
  rw [List.mem_range] at hi
  rw [cross_single_left]
  refine ⟨?_, ?_, ?_⟩
  · rw [List.length_map]
    exact slice_rows_length hm hi
  · refine List.Nodup.map_on ?_ (nodup_slice_rows hn)
    intro x _ y _ hxy
    exact (Prod.mk.injEq _ _ _ _).mp hxy |>.2
  · exact ⟨r, by intro p hp; rw [List.mem_map] at hp; obtain ⟨c, _, rfl⟩ := hp; rfl⟩

lemma horz_sets_prop (n m : Nat) (hm : m ≤ n) (hn : n ≤ 159) :
    ∀ ws ∈ horz_sets n m, ws.length = m ∧ ws.Nodup ∧ fixed_col ws := by
  intro ws hws
  unfold horz_sets at hws
  rw [List.mem_flatMap] at hws
  obtain ⟨c, _, hws⟩ := hws
  rw [List.mem_map] at hws
  obtain ⟨i, hi, rfl⟩ := hws
  rw [List.mem_range] at hi
  rw [cross_single_right]
  refine ⟨?_, ?_, ?_⟩
  · rw [List.length_map]
    exact slice_rows_length hm hi
  · refine List.Nodup.map_on ?_ (nodup_slice_rows hn)
    intro x _ y _ hxy
    exact (Prod.mk.injEq _ _ _ _).mp hxy |>.1
  · exact ⟨c, by intro p hp; rw [List.mem_map] at hp; obtain ⟨rr, _, rfl⟩ := hp; rfl⟩

lemma dia1_sets_prop (n m : Nat) (hm : m ≤ n) (hn : n ≤ 159) :
    ∀ ws ∈ dia1_sets n m, ws.length = m ∧ ws.Nodup ∧ desc_diag ws := by
  intro ws hws
  unfold dia1_sets at hws
  rw [List.mem_flatMap] at hws
  obtain ⟨i, hi, hws⟩ := hws
  rw [List.mem_map] at hws
  obtain ⟨j, hj, rfl⟩ := hws
  rw [List.mem_range] at hi hj
  unfold diag cols
  have hlr : (((rows n).drop i).take m).length = m := slice_rows_length hm hi
  have hlc : (((rows n).drop j).take m).length = m := slice_rows_length hm hj
  have hlen : ((((rows n).drop i).take m).zip (((rows n).drop j).take m)).length = m := by
    rw [List.length_zip, hlr, hlc]; omega
  refine ⟨hlen, ?_, ?_⟩
  · have hfst := List.map_fst_zip (((rows n).drop i).take m) (((rows n).drop j).take m)
      (by rw [hlr, hlc])
    exact List.Nodup.of_map Prod.fst (by rw [hfst]; exact nodup_slice_rows hn)
  · intro t h1 h2
    rw [hlen] at h1 h2
    have hb1 : t < ((((rows n).drop i).take m).zip (((rows n).drop j).take m)).length := by
      rw [hlen]; omega
    have hb2 : t + 1 < ((((rows n).drop i).take m).zip (((rows n).drop j).take m)).length := by
      rw [hlen]; omega
    have ha1 : t < (((rows n).drop i).take m).length := by rw [hlr]; omega
    have ha2 : t + 1 < (((rows n).drop i).take m).length := by rw [hlr]; omega
    have hc1 : t < (((rows n).drop j).take m).length := by rw [hlc]; omega
    have hc2 : t + 1 < (((rows n).drop j).take m).length := by rw [hlc]; omega
    simp only [List.get_eq_getElem, List.getElem_zip]
    rw [slice_rows_getElem t hm hi ha1, slice_rows_getElem (t + 1) hm hi ha2,
      slice_rows_getElem t hm hj hc1, slice_rows_getElem (t + 1) hm hj hc2]
    rw [toNat_ofNat_char (by omega), toNat_ofNat_char (by omega),
      toNat_ofNat_char (by omega), toNat_ofNat_char (by omega)]
    omega

lemma dia2_sets_prop (n m : Nat) (hm : m ≤ n) (hn : n ≤ 159) :
    ∀ ws ∈ dia2_sets n m, ws.length = m ∧ ws.Nodup ∧ asc_diag ws := by
  intro ws hws
  unfold dia2_sets at hws
  rw [List.mem_flatMap] at hws
  obtain ⟨i, hi, hws⟩ := hws
  rw [List.mem_map] at hws
  obtain ⟨j, hj, rfl⟩ := hws
  rw [List.mem_range] at hi hj
  unfold diag cols
  have hlr : (((rows n).drop i).take m).length = m := slice_rows_length hm hi
  have hlc : (((rows n).drop j).take m).length = m := slice_rows_length hm hj
  have hlcr : ((((rows n).drop j).take m).reverse).length = m := by
    rw [List.length_reverse]; exact hlc
  have hlen : ((((rows n).drop i).take m).zip ((((rows n).drop j).take m).reverse)).length = m := by
    rw [List.length_zip, hlr, hlcr]; omega
  refine ⟨hlen, ?_, ?_⟩
  · have hfst := List.map_fst_zip (((rows n).drop i).take m)
      ((((rows n).drop j).take m).reverse) (by rw [hlr, hlcr])
    exact List.Nodup.of_map Prod.fst (by rw [hfst]; exact nodup_slice_rows hn)
  · intro t h1 h2
    rw [hlen] at h1 h2
    have hb1 : t < ((((rows n).drop i).take m).zip ((((rows n).drop j).take m).reverse)).length := by
      rw [hlen]; omega
    have hb2 : t + 1 < ((((rows n).drop i).take m).zip ((((rows n).drop j).take m).reverse)).length := by
      rw [hlen]; omega
    have ha1 : t < (((rows n).drop i).take m).length := by rw [hlr]; omega
    have ha2 : t + 1 < (((rows n).drop i).take m).length := by rw [hlr]; omega
    have hc1 : t < ((((rows n).drop j).take m).reverse).length := by rw [hlcr]; omega
    have hc2 : t + 1 < ((((rows n).drop j).take m).reverse).length := by rw [hlcr]; omega
    have hd1 : (((rows n).drop j).take m).length - 1 - t < (((rows n).drop j).take m).length := by
      rw [hlc]; omega
    have hd2 : (((rows n).drop j).take m).length - 1 - (t + 1) < (((rows n).drop j).take m).length := by
      rw [hlc]; omega
    simp only [List.get_eq_getElem, List.getElem_zip, List.getElem_reverse]
    rw [slice_rows_getElem t hm hi ha1, slice_rows_getElem (t + 1) hm hi ha2,
      slice_rows_getElem _ hm hj hd1, slice_rows_getElem _ hm hj hd2]
    rw [toNat_ofNat_char (by omega), toNat_ofNat_char (by omega),
      toNat_ofNat_char (by omega), toNat_ofNat_char (by omega)]
    rw [hlc]
    omega

lemma win_sets_mem_prop (n m : Nat) (hm : m ≤ n) (hn : n ≤ 159) :
    ∀ ws ∈ win_sets n m, ws.length = m ∧ ws.Nodup ∧
      (fixed_row ws ∨ fixed_col ws ∨ desc_diag ws ∨ asc_diag ws) := by
  intro ws hws
  rw [win_sets] at hws
  simp only [List.mem_append] at hws
  rcases hws with ((h | h) | h) | h
  · obtain ⟨h1, h2, h3⟩ := vert_sets_prop n m hm hn ws h
    exact ⟨h1, h2, Or.inl h3⟩
  · obtain ⟨h1, h2, h3⟩ := horz_sets_prop n m hm hn ws h
    exact ⟨h1, h2, Or.inr (Or.inl h3)⟩
  · obtain ⟨h1, h2, h3⟩ := dia1_sets_prop n m hm hn ws h
    exact ⟨h1, h2, Or.inr (Or.inr (Or.inl h3))⟩
  · obtain ⟨h1, h2, h3⟩ := dia2_sets_prop n m hm hn ws h
    exact ⟨h1, h2, Or.inr (Or.inr (Or.inr h3))⟩

/-! Membership characterizations for the offensive evaluator. -/

lemma mem_slot_to_winsets {n m : Nat} {s : Slot} {ws : List Slot} :
    ws ∈ slot_to_winsets n m s ↔ ws ∈ win_sets n m ∧ s ∈ ws := by
  simp [slot_to_winsets, List.mem_filter]

lemma mem_can_not_win_sets {b : Board} {p2 : List Slot} {ws : List Slot} :
    ws ∈ can_not_win_sets b p2 ↔ ws ∈ b.win_sets ∧ ∃ s ∈ p2, s ∈ ws := by
  unfold can_not_win_sets
  rw [List.mem_flatten]
  constructor
  · rintro ⟨l, hl, hw⟩
    rw [List.mem_map] at hl
    obtain ⟨s, hs, rfl⟩ := hl
    rw [Board.slot_to_winsets, mem_slot_to_winsets] at hw
    exact ⟨hw.1, s, hs, hw.2⟩
  · rintro ⟨hwin, s, hs, hsw⟩
    refine ⟨b.slot_to_winsets s, List.mem_map_of_mem _ hs, ?_⟩
    rw [Board.slot_to_winsets, mem_slot_to_winsets]
    exact ⟨hwin, hsw⟩

lemma mem_can_win_sets {b : Board} {p2 : List Slot} {ws : List Slot} :
    ws ∈ can_win_sets b p2 ↔ ws ∈ b.win_sets ∧ ∀ s ∈ p2, ¬ s ∈ ws := by
  unfold can_win_sets
  rw [List.mem_filter]
  simp only [decide_eq_true_eq]
  rw [mem_can_not_win_sets]
  constructor
  · rintro ⟨hw, hnot⟩
    exact ⟨hw, fun s hs hsw => hnot ⟨hw, s, hs, hsw⟩⟩
  · rintro ⟨hw, hall⟩
    refine ⟨hw, ?_⟩
    rintro ⟨_, s, hs, hsw⟩
    exact hall s hs hsw

lemma mem_vacant_slots {p1 cw : List Slot} {s : Slot} :
    s ∈ vacant_slots p1 cw ↔ s ∈ cw ∧ ¬ s ∈ p1 := by
  simp [vacant_slots, List.mem_filter, List.mem_dedup]

lemma vacant_slots_eq_nil {p1 cw : List Slot} :
    vacant_slots p1 cw = [] ↔ ∀ s ∈ cw, s ∈ p1 := by
  constructor
  · intro h s hs
    by_contra hns
    have hmem : s ∈ vacant_slots p1 cw := mem_vacant_slots.mpr ⟨hs, hns⟩
    rw [h] at hmem
    exact absurd hmem (List.not_mem_nil s)
  · intro h
    rw [List.eq_nil_iff_forall_not_mem]
    intro s hs
    rw [mem_vacant_slots] at hs
    exact hs.2 (h s hs.1)

/-! The evaluator's loop, characterized. -/

lemma foldl_bom_step_snd (b : Board) (p1 : List Slot) (l : List (List Slot))
    (w : Slot → Nat) (i : Int) :
    (l.foldl (bom_step b p1) (w, i)).2
      = if ∃ cw ∈ l, vacant_slots p1 cw = [] then 1 else i := by
  induction l generalizing w i with
  | nil => simp
  | cons hd tl ih =>
    rw [List.foldl_cons]
    have hstep : bom_step b p1 (w, i) hd =
        (fun s => if s ∈ vacant_slots p1 hd then
            w s + 5 ^ (b.win_size - (vacant_slots p1 hd).length) else w s,
          if (vacant_slots p1 hd).length = 0 then 1 else i) := rfl
    rw [hstep, ih]
    have hlen : ((vacant_slots p1 hd).length = 0) ↔ (vacant_slots p1 hd = []) :=
      List.length_eq_zero
    by_cases h1 : vacant_slots p1 hd = []
    · rw [if_pos (hlen.mpr h1)]
      have hex : ∃ cw ∈ hd :: tl, vacant_slots p1 cw = [] :=
        ⟨hd, List.mem_cons_self _ _, h1⟩
      rw [if_pos hex]
      split
      · rfl
      · rfl
    · rw [if_neg (fun hc => h1 (hlen.mp hc))]
      have hiff : (∃ cw ∈ hd :: tl, vacant_slots p1 cw = []) ↔
          (∃ cw ∈ tl, vacant_slots p1 cw = []) := by
        constructor
        · rintro ⟨cw, hcw, he⟩
          rcases List.mem_cons.mp hcw with rfl | hcw'
          · exact absurd he h1
          · exact ⟨cw, hcw', he⟩
        · rintro ⟨cw, hcw, he⟩
          exact ⟨cw, List.mem_cons_of_mem _ hcw, he⟩
      by_cases h2 : ∃ cw ∈ tl, vacant_slots p1 cw = []
      · rw [if_pos h2, if_pos (hiff.mpr h2)]
      · rw [if_neg h2, if_neg (fun hc => h2 (hiff.mp hc))]

lemma foldl_bom_step_fst (b : Board) (p1 : List Slot) (l : List (List Slot))
    (w : Slot → Nat) (i : Int) (s : Slot) :
    (l.foldl (bom_step b p1) (w, i)).1 s
      = w s + (l.map (fun cw => if s ∈ vacant_slots p1 cw then
          5 ^ (b.win_size - (vacant_slots p1 cw).length) else 0)).sum := by
  induction l generalizing w i with
  | nil => simp
  | cons hd tl ih =>
    rw [List.foldl_cons]
    have hstep : bom_step b p1 (w, i) hd =
        (fun s => if s ∈ vacant_slots p1 hd then
            w s + 5 ^ (b.win_size - (vacant_slots p1 hd).length) else w s,
          if (vacant_slots p1 hd).length = 0 then 1 else i) := rfl
    rw [hstep, ih]
    rw [List.map_cons, List.sum_cons]
    by_cases h : s ∈ vacant_slots p1 hd
    · rw [if_pos h, if_pos h]
      ring
    · rw [if_neg h, if_neg h]
      ring

lemma bom_snd_eq (b : Board) (p1 p2 e : List Slot) :
    (best_offensive_move b p1 p2 e).2
      = if ∃ cw ∈ can_win_sets b p2, vacant_slots p1 cw = [] then 1
        else if (can_win_sets b p2).length = 0 then -1 else 0 := by
  unfold best_offensive_move
  rw [foldl_bom_step_snd]

lemma bom_fst_eq (b : Board) (p1 p2 e : List Slot) (s : Slot) :
    (best_offensive_move b p1 p2 e).1 s
      = ((can_win_sets b p2).map (fun cw => if s ∈ vacant_slots p1 cw then
          5 ^ (b.win_size - (vacant_slots p1 cw).length) else 0)).sum := by
  unfold best_offensive_move
  rw [foldl_bom_step_fst]
  simp

/-! The arg-max over the weight dict. -/

lemma argmax_fold_spec (rest : List (Slot × ℚ)) (p0 : Slot × ℚ) :
    (rest.foldl (fun best q => if best.2 < q.2 then q else best) p0 = p0 ∨
      rest.foldl (fun best q => if best.2 < q.2 then q else best) p0 ∈ rest) ∧
    p0.2 ≤ (rest.foldl (fun best q => if best.2 < q.2 then q else best) p0).2 ∧
    ∀ q ∈ rest, q.2 ≤ (rest.foldl (fun best q => if best.2 < q.2 then q else best) p0).2 := by
  induction rest generalizing p0 with
  | nil => simp
  | cons hd tl ih =>
    simp only [List.foldl_cons]
    by_cases h : p0.2 < hd.2
    · rw [if_pos h]
      obtain ⟨hmem, hle, hall⟩ := ih hd
      refine ⟨?_, le_trans (le_of_lt h) hle, ?_⟩
      · rcases hmem with he | hm
        · exact Or.inr (by rw [he]; exact List.mem_cons_self _ _)
        · exact Or.inr (List.mem_cons_of_mem _ hm)
      · intro q hq
        rcases List.mem_cons.mp hq with rfl | hq'
        · exact hle
        · exact hall q hq'
    · rw [if_neg h]
      obtain ⟨hmem, hle, hall⟩ := ih p0
      refine ⟨?_, hle, ?_⟩
      · rcases hmem with he | hm
        · exact Or.inl he
        · exact Or.inr (List.mem_cons_of_mem _ hm)
      · intro q hq
        rcases List.mem_cons.mp hq with rfl | hq'
        · exact le_trans (le_of_not_lt h) hle
        · exact hall q hq'

lemma argmax_pair_spec (l : List (Slot × ℚ)) (hl : l ≠ []) :
    ∃ p, argmax_pair l = some p ∧ p ∈ l ∧ ∀ q ∈ l, q.2 ≤ p.2 := by
  match l, hl with
  | p0 :: rest, _ =>
    obtain ⟨hmem, hle, hall⟩ := argmax_fold_spec rest p0
    refine ⟨_, rfl, ?_, ?_⟩
    · rcases hmem with he | hm
      · rw [he]
        exact List.mem_cons_self _ _
      · exact List.mem_cons_of_mem _ hm
    · intro q hq
      rcases List.mem_cons.mp hq with rfl | hq'
      · exact hle
      · exact hall q hq'

/-! Lookup lemmas for the placements dict. -/

lemma lookup_map_set_self (l : List (Slot × Char)) (s : Slot) (peg : Char) (v : Char)
    (h : l.lookup s = some v) :
    (l.map (fun q => if q.1 = s then (q.1, peg) else q)).lookup s = some peg := by
  induction l with
  | nil => simp [List.lookup] at h
  | cons a t ih =>
    rw [List.map_cons]
    by_cases hs : a.1 = s
    · rw [if_pos hs]
      have hbeq : (s == a.1) = true := by simp [hs]
      simp [List.lookup, hbeq]
    · rw [if_neg hs]
      have hbeq : (s == a.1) = false := by
        simp only [beq_eq_false_iff_ne, ne_eq]
        exact fun he => hs he.symm
      rw [List.lookup] at h
      rw [hbeq] at h
      rw [List.lookup, hbeq]
      exact ih h

lemma lookup_map_set_other (l : List (Slot × Char)) (s t : Slot) (peg : Char)
    (hts : ¬ t = s) :
    (l.map (fun q => if q.1 = s then (q.1, peg) else q)).lookup t = l.lookup t := by
  induction l with
  | nil => simp
  | cons a u ih =>
    rw [List.map_cons]
    by_cases hs : a.1 = s
    · rw [if_pos hs]
      have hbeq : (t == a.1) = false := by
        simp only [beq_eq_false_iff_ne, ne_eq]
        exact fun he => hts (he.trans hs)
      rw [List.lookup, hbeq, List.lookup, hbeq]
      exact ih
    · rw [if_neg hs]
      by_cases hta : t = a.1
      · have hbeq : (t == a.1) = true := by simp [hta]
        rw [List.lookup, hbeq, List.lookup, hbeq]
      · have hbeq : (t == a.1) = false := by
          simp only [beq_eq_false_iff_ne, ne_eq]
          exact hta
        rw [List.lookup, hbeq, List.lookup, hbeq]
        exact ih

lemma lookup_zip_replicate (l : List Slot) (c : Char) :
    ∀ (k : Nat), l.length ≤ k → ∀ s ∈ l, (l.zip (List.replicate k c)).lookup s = some c := by
  induction l with
  | nil => intro k _ s hs; exact absurd hs (List.not_mem_nil s)
  | cons a t ih =>
    intro k hk s hs
    match k with
    | 0 => simp at hk
    | k + 1 =>
      rw [List.replicate_succ, List.zip_cons_cons]
      by_cases hsa : s = a
      · have hbeq : (s == a) = true := by simp [hsa]
        rw [List.lookup, hbeq]
      · have hbeq : (s == a) = false := by
          simp only [beq_eq_false_iff_ne, ne_eq]
          exact hsa
        rw [List.lookup, hbeq]
        rcases List.mem_cons.mp hs with rfl | hst
        · exact absurd rfl hsa
        · exact ih k (by simpa using hk) s hst

/-! The claims. -/

/-- Claim C2: for every valid configuration (board_size n, win_size m) with
m ≤ n — n also within the range of Python 2's `chr`, which the source uses
for row labels, i.e. 97 + n - 1 ≤ 255 — the line-set generator produces
exactly 2·(2n−m+1)·(n−m+1) Lines, each Line being a sequence of exactly m
distinct cells from one of the four families (fixed row, fixed column,
descending diagonal, ascending diagonal). -/
theorem claim_C2_line_generator (n m : Nat) (hm : m ≤ n) (hn : n ≤ 159) :
    (win_sets n m).length = 2 * (2 * n - m + 1) * (n - m + 1) ∧
    ∀ ws ∈ win_sets n m, ws.length = m ∧ ws.Nodup ∧
      (fixed_row ws ∨ fixed_col ws ∨ desc_diag ws ∨ asc_diag ws) :=
  ⟨length_win_sets n m hm, win_sets_mem_prop n m hm hn⟩

/-- Witness for C2 at the classical 3×3 configuration: eight lines. -/
theorem claim_C2_witness :
    (win_sets 3 3).length = 2 * (2 * 3 - 3 + 1) * (3 - 3 + 1) ∧ (win_sets 3 3).length = 8 :=
  ⟨(claim_C2_line_generator 3 3 (by decide) (by decide)).1, by decide⟩

/-- Claim C3: for every call to the offensive evaluator — (a) if every Line
contains a defender-occupied cell, the indicator is BLOCKED (-1) and the
weight map is zero on every empty cell; (b) if some alive Line has empty
vacancy, the indicator is WON (1) no matter which other lines are processed
(it is never reset); (c) otherwise the indicator is CONTINUE (0). -/
theorem claim_C3_indicator (b : Board) (p1_l p2_l e_l : List Slot) :
    ((∀ ws ∈ b.win_sets, ∃ s ∈ p2_l, s ∈ ws) →
      (best_offensive_move b p1_l p2_l e_l).2 = -1 ∧
      ∀ s ∈ e_l, (best_offensive_move b p1_l p2_l e_l).1 s = 0) ∧
    ((∃ ws ∈ b.win_sets, (∀ s ∈ p2_l, ¬ s ∈ ws) ∧ ∀ c ∈ ws, c ∈ p1_l) →
      (best_offensive_move b p1_l p2_l e_l).2 = 1) ∧
    ((∃ ws ∈ b.win_sets, ∀ s ∈ p2_l, ¬ s ∈ ws) →
      (∀ ws ∈ b.win_sets, (∀ s ∈ p2_l, ¬ s ∈ ws) → ∃ c ∈ ws, ¬ c ∈ p1_l) →
      (best_offensive_move b p1_l p2_l e_l).2 = 0) := by
  refine ⟨?_, ?_, ?_⟩
  · intro hdead
    have hnil : can_win_sets b p2_l = [] := by
      rw [List.eq_nil_iff_forall_not_mem]
      intro ws hws
      rw [mem_can_win_sets] at hws
      obtain ⟨s, hs, hsw⟩ := hdead ws hws.1
      exact hws.2 s hs hsw
    constructor
    · rw [bom_snd_eq, hnil]
      simp
    · intro s _
      rw [bom_fst_eq, hnil]
      simp
  · rintro ⟨ws, hws, halive, hfull⟩
    rw [bom_snd_eq]
    have hmem : ws ∈ can_win_sets b p2_l := mem_can_win_sets.mpr ⟨hws, halive⟩
    rw [if_pos ⟨ws, hmem, vacant_slots_eq_nil.mpr hfull⟩]
  · rintro ⟨ws, hws, halive⟩ hnofull
    rw [bom_snd_eq]
    have hmem : ws ∈ can_win_sets b p2_l := mem_can_win_sets.mpr ⟨hws, halive⟩
    have hnoex : ¬ ∃ cw ∈ can_win_sets b p2_l, vacant_slots p1_l cw = [] := by
      rintro ⟨cw, hcw, hemp⟩
      rw [mem_can_win_sets] at hcw
      obtain ⟨c, hc, hcp1⟩ := hnofull cw hcw.1 hcw.2
      exact hcp1 (vacant_slots_eq_nil.mp hemp c hc)
    rw [if_neg hnoex]
    have hlen : ¬ (can_win_sets b p2_l).length = 0 := by
      intro hc
      rw [List.length_eq_zero] at hc
      rw [hc] at hmem
      exact absurd hmem (List.not_mem_nil ws)
    rw [if_neg hlen]

/-- Witness for C3 on a 1×1 board fully occupied by the attacker: WON. -/
theorem claim_C3_witness :
    (∃ ws ∈ (Board.mk 1 1 [(('a', 'a'), 'X')]).win_sets,
      (∀ s ∈ ([] : List Slot), ¬ s ∈ ws) ∧ ∀ c ∈ ws, c ∈ [(('a', 'a') : Slot)]) ∧
    (best_offensive_move (Board.mk 1 1 [(('a', 'a'), 'X')]) [('a', 'a')] [] []).2 = 1 :=
  ⟨by decide, (claim_C3_indicator (Board.mk 1 1 [(('a', 'a'), 'X')])
    [('a', 'a')] [] []).2.1 (by decide)⟩

/-- Claim C4: every alive Line contributes exactly 5^(win_size − |vacancy|)
to the running weight of each cell of its vacancy (and nothing elsewhere):
the final weight of a cell is the sum of those contributions.  A Line with
no attacker cell scores 1, and a Line missing a single cell scores
5^(win_size − 1). -/
theorem claim_C4_line_scores (b : Board) (p1_l p2_l e_l : List Slot)
    (hm : b.win_size ≤ b.board_size) (hn : b.board_size ≤ 159) :
    (∀ s : Slot, (best_offensive_move b p1_l p2_l e_l).1 s
      = ((can_win_sets b p2_l).map (fun cw => if s ∈ vacant_slots p1_l cw then
          5 ^ (b.win_size - (vacant_slots p1_l cw).length) else 0)).sum) ∧
    (∀ cw ∈ can_win_sets b p2_l, (∀ c ∈ cw, ¬ c ∈ p1_l) →
      5 ^ (b.win_size - (vacant_slots p1_l cw).length) = 1) ∧
    (∀ cw ∈ can_win_sets b p2_l, (vacant_slots p1_l cw).length = 1 →
      5 ^ (b.win_size - (vacant_slots p1_l cw).length) = 5 ^ (b.win_size - 1)) := by
  refine ⟨fun s => bom_fst_eq b p1_l p2_l e_l s, ?_, ?_⟩
  · intro cw hcw hno
    rw [mem_can_win_sets] at hcw
    obtain ⟨hlen, hnodup, _⟩ := win_sets_mem_prop b.board_size b.win_size hm hn cw hcw.1
    have hvac : vacant_slots p1_l cw = cw := by
      unfold vacant_slots
      rw [List.Nodup.dedup hnodup]
      exact List.filter_eq_self.mpr (fun a ha => by simpa using hno a ha)
    rw [hvac, hlen, Nat.sub_self, pow_zero]
  · intro cw _ hone
    rw [hone]

/-- Witness for C4 on an empty 3×3 board with no occupied cells. -/
theorem claim_C4_witness :
    (best_offensive_move (Board.mk 3 3 []) [] [] []).1 ('a', 'a')
      = ((can_win_sets (Board.mk 3 3 []) []).map (fun cw =>
          if (('a', 'a') : Slot) ∈ vacant_slots [] cw then
            5 ^ ((Board.mk 3 3 []).win_size - (vacant_slots [] cw).length) else 0)).sum :=
  (claim_C4_line_scores (Board.mk 3 3 []) [] [] [] (by decide) (by decide)).1 ('a', 'a')

lemma best_slot_continue (b : Board) (my_peg : Char) (defensiveness : ℚ)
    (hlen : ¬ (empty_slots b).length = 0)
    (h1 : ¬ i1 b my_peg = 1) (h2 : ¬ i2 b my_peg = 1)
    (h3 : ¬ (i1 b my_peg = -1 ∧ i2 b my_peg = -1)) :
    best_slot b my_peg defensiveness
      = ((argmax_pair ((empty_slots b).map (fun s =>
          (s, (w1 b my_peg s : ℚ) + defensiveness * (w2 b my_peg s : ℚ))))).map Prod.fst,
          "") := by
  unfold best_slot
  rw [if_neg hlen, if_neg h1, if_neg h2, if_neg h3]

/-- Claim C1: on a board with an empty cell and no terminal state, best_slot
returns an empty cell maximizing combined[c] = w1[c] + defensiveness·w2[c]
over the empty cells, paired with the empty message. -/
theorem claim_C1_best_slot (b : Board) (my_peg : Char) (defensiveness : ℚ)
    (hne : empty_slots b ≠ [])
    (h1 : ¬ i1 b my_peg = 1) (h2 : ¬ i2 b my_peg = 1)
    (h3 : ¬ (i1 b my_peg = -1 ∧ i2 b my_peg = -1)) :
    ∃ c, best_slot b my_peg defensiveness = (some c, "") ∧ c ∈ empty_slots b ∧
      ∀ s ∈ empty_slots b,
        (w1 b my_peg s : ℚ) + defensiveness * (w2 b my_peg s : ℚ)
          ≤ (w1 b my_peg c : ℚ) + defensiveness * (w2 b my_peg c : ℚ) := by
  have hlen : ¬ (empty_slots b).length = 0 := fun hc => hne (List.length_eq_zero.mp hc)
  have hswne : (empty_slots b).map (fun s =>
      (s, (w1 b my_peg s : ℚ) + defensiveness * (w2 b my_peg s : ℚ))) ≠ [] := by
    intro hc
    rw [List.map_eq_nil_iff] at hc
    exact hne hc
  obtain ⟨p, hp, hpm, hall⟩ := argmax_pair_spec _ hswne
  rw [List.mem_map] at hpm
  obtain ⟨s0, hs0, hps⟩ := hpm
  refine ⟨p.1, ?_, ?_, ?_⟩
  · rw [best_slot_continue b my_peg defensiveness hlen h1 h2 h3, hp]
    rfl
  · rw [← hps]
    exact hs0
  · intro s hs
    have hmem := List.mem_map_of_mem
      (fun s => (s, (w1 b my_peg s : ℚ) + defensiveness * (w2 b my_peg s : ℚ))) hs
    have hle := hall _ hmem
    rw [← hps] at hle ⊢
    simpa using hle

/-- Witness for C1 on the empty 1×1 board: the single cell is returned. -/
theorem claim_C1_witness :
    (empty_slots (Board.mk 1 1 [(('a', 'a'), ' ')]) ≠ []) ∧
    (¬ i1 (Board.mk 1 1 [(('a', 'a'), ' ')]) 'X' = 1) ∧
    (¬ i2 (Board.mk 1 1 [(('a', 'a'), ' ')]) 'X' = 1) ∧
    (∃ c, best_slot (Board.mk 1 1 [(('a', 'a'), ' ')]) 'X' 5 = (some c, "") ∧
      c ∈ empty_slots (Board.mk 1 1 [(('a', 'a'), ' ')]) ∧
      ∀ s ∈ empty_slots (Board.mk 1 1 [(('a', 'a'), ' ')]),
        (w1 (Board.mk 1 1 [(('a', 'a'), ' ')]) 'X' s : ℚ)
            + 5 * (w2 (Board.mk 1 1 [(('a', 'a'), ' ')]) 'X' s : ℚ)
          ≤ (w1 (Board.mk 1 1 [(('a', 'a'), ' ')]) 'X' c : ℚ)
            + 5 * (w2 (Board.mk 1 1 [(('a', 'a'), ' ')]) 'X' c : ℚ)) :=
  ⟨by decide, by decide, by decide,
    claim_C1_best_slot (Board.mk 1 1 [(('a', 'a'), ' ')]) 'X' 5
      (by decide) (by decide) (by decide) (by decide)⟩

/-- Claim C5: best_slot resolves terminal states in a fixed priority order —
full board first (draw, before anything else), then mover WON, then opponent
WON, then double-BLOCKED draw — each returning a `none` cell with its
message, before any score blending. -/
theorem claim_C5_terminal_order (b : Board) (my_peg : Char) (defensiveness : ℚ) :
    (empty_slots b = [] →
      best_slot b my_peg defensiveness = (none, "GAME DRAW !!")) ∧
    (empty_slots b ≠ [] → i1 b my_peg = 1 →
      best_slot b my_peg defensiveness = (none, String.mk [my_peg] ++ " has won !!")) ∧
    (empty_slots b ≠ [] → ¬ i1 b my_peg = 1 → i2 b my_peg = 1 →
      best_slot b my_peg defensiveness
        = (none, String.mk (opposite my_peg) ++ " has won !!")) ∧
    (empty_slots b ≠ [] → ¬ i1 b my_peg = 1 → ¬ i2 b my_peg = 1 →
      i1 b my_peg = -1 → i2 b my_peg = -1 →
      best_slot b my_peg defensiveness = (none, "The game is draw !!")) := by
  refine ⟨?_, ?_, ?_, ?_⟩
  · intro h
    unfold best_slot
    rw [if_pos (show (empty_slots b).length = 0 by rw [h]; rfl)]
  · intro hne h1
    have hlen : ¬ (empty_slots b).length = 0 :=
      fun hc => hne (List.length_eq_zero.mp hc)
    unfold best_slot
    rw [if_neg hlen, if_pos h1]
  · intro hne h1 h2
    have hlen : ¬ (empty_slots b).length = 0 :=
      fun hc => hne (List.length_eq_zero.mp hc)
    unfold best_slot
    rw [if_neg hlen, if_neg h1, if_pos h2]
  · intro hne h1n h2n h1 h2
    have hlen : ¬ (empty_slots b).length = 0 :=
      fun hc => hne (List.length_eq_zero.mp hc)
    unfold best_slot
    rw [if_neg hlen, if_neg h1n, if_neg h2n, if_pos ⟨h1, h2⟩]

/-- Witness for C5: on a full 1×1 board the draw branch fires first. -/
theorem claim_C5_witness :
    (empty_slots (Board.mk 1 1 [(('a', 'a'), 'X')]) = []) ∧
    best_slot (Board.mk 1 1 [(('a', 'a'), 'X')]) 'X' 5 = (none, "GAME DRAW !!") :=
  ⟨by decide,
    (claim_C5_terminal_order (Board.mk 1 1 [(('a', 'a'), 'X')]) 'X' 5).1 (by decide)⟩

/-- Claim C9: best_slot is evaluation-idempotent and mutates nothing — in
the state-threading rendering the post-state is the input board, a second
call on that post-state returns the same answer, and the placements, the
Lines collection and the SlotLineIndex are all unchanged. -/
theorem claim_C9_idempotent (b : Board) (my_peg : Char) (defensiveness : ℚ) :
    (best_slot_run b my_peg defensiveness).2 = b ∧
    (best_slot_run b my_peg defensiveness).1
      = (best_slot_run ((best_slot_run b my_peg defensiveness).2) my_peg defensiveness).1 ∧
    ((best_slot_run b my_peg defensiveness).2).placements = b.placements ∧
    ((best_slot_run b my_peg defensiveness).2).win_sets = b.win_sets ∧
    ∀ s, ((best_slot_run b my_peg defensiveness).2).slot_to_winsets s
      = b.slot_to_winsets s :=
  ⟨rfl, rfl, rfl, rfl, fun _ => rfl⟩

/-- Claim C10: whenever best_slot returns a cell, that cell is an empty cell
of the board — never one occupied by either peg. -/
theorem claim_C10_returns_empty (b : Board) (my_peg : Char) (defensiveness : ℚ)
    (c : Slot) (msg : String)
    (h : best_slot b my_peg defensiveness = (some c, msg)) :
    c ∈ empty_slots b ∧ c ∈ b.slots ∧ peg_at b c = ' ' := by
  by_cases h0 : (empty_slots b).length = 0
  · unfold best_slot at h
    rw [if_pos h0] at h
    simp at h
  by_cases h1 : i1 b my_peg = 1
  · unfold best_slot at h
    rw [if_neg h0, if_pos h1] at h
    simp at h
  by_cases h2 : i2 b my_peg = 1
  · unfold best_slot at h
    rw [if_neg h0, if_neg h1, if_pos h2] at h
    simp at h
  by_cases h3 : i1 b my_peg = -1 ∧ i2 b my_peg = -1
  · unfold best_slot at h
    rw [if_neg h0, if_neg h1, if_neg h2, if_pos h3] at h
    simp at h
  rw [best_slot_continue b my_peg defensiveness h0 h1 h2 h3] at h
  have hswne : (empty_slots b).map (fun s =>
      (s, (w1 b my_peg s : ℚ) + defensiveness * (w2 b my_peg s : ℚ))) ≠ [] := by
    intro hc
    rw [List.map_eq_nil_iff] at hc
    exact h0 (by rw [hc]; rfl)
  obtain ⟨p, hp, hpm, _⟩ := argmax_pair_spec _ hswne
  rw [hp] at h
  have hc : p.1 = c := by
    have := congrArg Prod.fst h
    simpa using this
  rw [List.mem_map] at hpm
  obtain ⟨s0, hs0, hps⟩ := hpm
  have hcs : c = s0 := by
    rw [← hc, ← hps]
  subst hcs
  rw [empty_slots, List.mem_filter] at hs0
  refine ⟨?_, hs0.1, by simpa using hs0.2⟩
  rw [empty_slots, List.mem_filter]
  exact hs0

/-- Witness for C10 on the empty 1×1 board. -/
theorem claim_C10_witness :
    best_slot (Board.mk 1 1 [(('a', 'a'), ' ')]) 'X' 5 = (some ('a', 'a'), "") ∧
    peg_at (Board.mk 1 1 [(('a', 'a'), ' ')]) ('a', 'a') = ' ' :=
  ⟨by decide,
    (claim_C10_returns_empty (Board.mk 1 1 [(('a', 'a'), ' ')]) 'X' 5 ('a', 'a') ""
      (by decide)).2.2⟩

/-- Counterexample for C6 as stated: the board text "..X|.O.|..." is
accepted by parsing for a 3×3 board, yet its decoding is NOT the 1:1
character-to-peg mapping the claim describes — the delimiter characters are
dropped, not interpreted as Empty, and the 1:1 image has 11 ≠ 9 entries. -/
theorem claim_C6_counterexample :
    (parse_board 3 (slots 3) "..X|.O.|...").isOk = true ∧
    ((parse_board 3 (slots 3) "..X|.O.|...").map (fun pl => pl.map Prod.snd)).toOption
      ≠ some (decode_one_to_one "..X|.O.|...") ∧
    ¬ (decode_one_to_one "..X|.O.|...").length = 3 ^ 2 :=
  ⟨by decide, by decide, by decide⟩

/-- Claim C6 (amended): every accepted board text decodes to exactly
board_size² cells, keyed by the slots in row-major order, and every decoded
cell holds one of the two markers or Empty; characters other than the
markers, '.', and ' ' are dropped as delimiters rather than decoded. -/
theorem claim_C6_parse (n : Nat) (str : String) (pl : List (Slot × Char))
    (h : parse_board n (slots n) str = Except.ok pl) :
    pl.length = n ^ 2 ∧ pl.map Prod.fst = slots n ∧
    ∀ p ∈ pl, p.2 = 'O' ∨ p.2 = 'X' ∨ p.2 = ' ' := by
  unfold parse_board at h
  by_cases hif : n ^ 2 = (parse_chars str).length
  · rw [if_pos hif] at h
    injection h with h2
    refine ⟨?_, ?_, ?_⟩
    · rw [← h2, List.length_zip, length_slots, ← hif]
      exact Nat.min_self _
    · rw [← h2]
      exact List.map_fst_zip _ _ (by rw [length_slots, ← hif])
    · intro p hp
      rw [← h2] at hp
      have hmem := (List.of_mem_zip hp).2
      rw [parse_chars, List.mem_filter] at hmem
      have hkept := hmem.2
      simp only [pegs, decide_eq_true_eq, List.mem_append, List.mem_cons,
        List.mem_singleton, List.not_mem_nil, or_false] at hkept
      tauto
  · rw [if_neg hif] at h
    exact absurd h (by simp)

/-- Witness for C6 on the accepted text "..X|.O.|...". -/
theorem claim_C6_witness :
    ([((('a' : Char), ('a' : Char)), ' '), (('a', 'b'), ' '), (('a', 'c'), 'X'),
      (('b', 'a'), ' '), (('b', 'b'), 'O'), (('b', 'c'), ' '),
      (('c', 'a'), ' '), (('c', 'b'), ' '), (('c', 'c'), ' ')] :
        List (Slot × Char)).length = 3 ^ 2 ∧
    ([((('a' : Char), ('a' : Char)), ' '), (('a', 'b'), ' '), (('a', 'c'), 'X'),
      (('b', 'a'), ' '), (('b', 'b'), 'O'), (('b', 'c'), ' '),
      (('c', 'a'), ' '), (('c', 'b'), ' '), (('c', 'c'), ' ')] :
        List (Slot × Char)).map Prod.fst = slots 3 := by
  have h := claim_C6_parse 3 "..X|.O.|..."
    [((('a' : Char), ('a' : Char)), ' '), (('a', 'b'), ' '), (('a', 'c'), 'X'),
      (('b', 'a'), ' '), (('b', 'b'), 'O'), (('b', 'c'), ' '),
      (('c', 'a'), ' '), (('c', 'b'), ' '), (('c', 'c'), ' ')] (by rfl)
  exact ⟨h.1, h.2.1⟩

/-- Counterexample for C7 as stated: construction does NOT succeed for every
win_size ≤ board_size.  For board_size 160 — win_size 1 ≤ 160 — Python 2's
`chr(97+x)` in `_initialize_structures` raises ValueError (codes up to
97+159 = 256 are needed but `chr` accepts only codes below 256), so
`Board(160, 1)` fails to construct. -/
theorem claim_C7_counterexample :
    (1 : Nat) ≤ 160 ∧
    mkBoard 160 1 none = Except.error "ValueError: chr() arg not in range(256)" :=
  ⟨by decide, rfl⟩

/-- Claim C7 (amended): constructing with win_size > board_size fails fast
with the assertion error and yields no board object; with
win_size ≤ board_size the default construction succeeds — provided
board_size ≤ 159, the range of Python 2's `chr` row labels — and produces a
board of the requested shape whose placements dict is total over the slots
and all-Empty; for board_size ≥ 160 construction fails before parsing with
the `chr` ValueError. -/
theorem claim_C7_construction (n m : Nat) (os : Option String) :
    (n < m → mkBoard n m os = Except.error "AssertionError: win_size <= board_size") ∧
    (m ≤ n → 159 < n →
      mkBoard n m os = Except.error "ValueError: chr() arg not in range(256)") ∧
    (m ≤ n → n ≤ 159 →
      ∃ b, mkBoard n m none = Except.ok b ∧ b.board_size = n ∧ b.win_size = m ∧
        ∀ s ∈ slots n, b.placements.lookup s = some ' ') := by
  refine ⟨?_, ?_, ?_⟩
  · intro hlt
    unfold mkBoard
    rw [if_neg (by omega)]
  · intro hle hbig
    unfold mkBoard
    rw [if_pos hle, if_neg (by omega)]
  · intro hle hn
    have hchars : parse_chars (String.mk (List.replicate (n ^ 2) ' '))
        = List.replicate (n ^ 2) ' ' := by
      unfold parse_chars
      have h1 : (String.mk (List.replicate (n ^ 2) ' ')).toList
          = List.replicate (n ^ 2) ' ' := rfl
      rw [h1, List.map_replicate]
      rw [if_neg (by decide)]
      refine List.filter_eq_self.mpr ?_
      intro a ha
      rw [List.eq_of_mem_replicate ha]
      decide
    have hparse : parse_board n (slots n) (String.mk (List.replicate (n ^ 2) ' '))
        = Except.ok ((slots n).zip (List.replicate (n ^ 2) ' ')) := by
      unfold parse_board
      rw [hchars, if_pos (by rw [List.length_replicate])]
    refine ⟨⟨n, m, (slots n).zip (List.replicate (n ^ 2) ' ')⟩, ?_, rfl, rfl, ?_⟩
    · unfold mkBoard
      rw [if_pos hle, if_pos hn]
      show (match parse_board n (slots n) (String.mk (List.replicate (n ^ 2) ' ')) with
        | Except.ok pl => Except.ok (⟨n, m, pl⟩ : Board)
        | Except.error e => Except.error e)
        = Except.ok (⟨n, m, (slots n).zip (List.replicate (n ^ 2) ' ')⟩ : Board)
      rw [hparse]
    · intro s hs
      exact lookup_zip_replicate (slots n) ' ' (n ^ 2) (le_of_eq (length_slots n)) s hs

/-- Witness for C7: a 2×2 board with win_size 3 is rejected, and a 1×1
default board constructs all-Empty. -/
theorem claim_C7_witness :
    mkBoard 2 3 none = Except.error "AssertionError: win_size <= board_size" ∧
    (∃ b, mkBoard 1 1 none = Except.ok b ∧ b.board_size = 1 ∧ b.win_size = 1 ∧
      ∀ s ∈ slots 1, b.placements.lookup s = some ' ') :=
  ⟨(claim_C7_construction 2 3 none).1 (by decide),
    (claim_C7_construction 1 1 none).2.2 (by decide) (by decide)⟩

/-- Claim C8: placing on a non-Empty (or missing) cell fails with the
assertion error and, the call returning only the error, leaves the board
unchanged (strong exception safety); placing on an Empty cell succeeds,
sets exactly that cell to the given peg and changes no other cell and no
other field of the board. -/
theorem claim_C8_place (b : Board) (slot : Slot) (peg : Char) :
    (¬ b.placements.lookup slot = some ' ' →
      add_placement b slot peg = Except.error "AssertionError: slot is not empty") ∧
    (b.placements.lookup slot = some ' ' →
      ∃ b2, add_placement b slot peg = Except.ok b2 ∧
        b2.placements.lookup slot = some peg ∧
        (∀ t, ¬ t = slot → b2.placements.lookup t = b.placements.lookup t) ∧
        b2.board_size = b.board_size ∧ b2.win_size = b.win_size) := by
  constructor
  · intro h
    unfold add_placement
    rw [if_neg h]
  · intro h
    refine ⟨{ b with placements :=
      b.placements.map (fun q => if q.1 = slot then (q.1, peg) else q) }, ?_, ?_, ?_, rfl, rfl⟩
    · unfold add_placement
      rw [if_pos h]
    · exact lookup_map_set_self _ _ _ _ h
    · intro t ht
      exact lookup_map_set_other _ _ _ _ ht

/-- Witness for C8: placing onto the occupied cell of a 1×1 board fails. -/
theorem claim_C8_witness :
    add_placement (Board.mk 1 1 [(('a', 'a'), 'X')]) ('a', 'a') 'O'
      = Except.error "AssertionError: slot is not empty" :=
  (claim_C8_place (Board.mk 1 1 [(('a', 'a'), 'X')]) ('a', 'a') 'O').1 (by decide)

end TicTacToe
